import Mathlib

/-!
Shallow embedding of the Automeet campaign outreach sequencing engine.

The definitions below are translated from the TypeScript sources:
  backend/src/services/email/emailSequenceExecutor.ts
  backend/src/services/email/emailComposer.ts
  backend/src/services/email/replyDetectionService.ts
  backend/src/schedulers/CampaignStatusTracker.ts

Modelling conventions:
* The Supabase store is a record of lists (one per table); `select ... .eq`
  becomes `List.filter` / `List.find?`, `update ... .eq` becomes `List.map`
  that rewrites exactly the matching rows, `insert` prepends a row.
* Timestamps are `Int` seconds.  The JS code computes delays in milliseconds
  (`delay_days * 24*60*60*1000`); we use the equivalent `delay_days * 86400`
  in seconds.  `Date.setDate (getDate () + d)` is modelled as adding
  `d * 86400` seconds.
* A thrown exception is an `err := true` flag carried next to the database
  state (the database mutations performed before the throw persist, as they
  do against a real store).  The Gmail send, the only external effect that
  the error-handling claims are about, is an oracle `sendOk` telling whether
  `gmailService.sendEmail` succeeds for a given prospect and step.
* Store reads and writes themselves always succeed in the model; `.single()`
  lookups are `List.find?` (first matching row, `none` for the PGRST116
  "no rows" case).
* Email-thread bookkeeping and the personalisation of the email body are
  omitted: no claim mentions them and they touch no table the claims read.
-/

namespace Automeet

inductive EngagementStatus
  | fresh
  | contacted
  | replied
  | meeting_scheduled
  | completed
deriving DecidableEq, Repr

inductive CampaignStatus
  | draft
  | scheduled
  | active
  | paused
  | completed
deriving DecidableEq, Repr

structure Campaign where
  id : Nat
  user_id : Nat
  status : CampaignStatus
  completed_at : Option Int
deriving DecidableEq, Repr

structure Prospect where
  id : Nat
  campaign_id : Nat
  email : String
  engagement_status : EngagementStatus
deriving DecidableEq, Repr

/-- The JSON `trigger_condition` blob of an outreach_sequences row.
`empty` stands for a null/absent or `\x7b\x7d` object
(`Object.keys (...).length == 0`); `unknown` for any other non-empty object
whose `type`/`value` pair is not one of the two recognised shapes. -/
inductive TriggerCondition
  | empty
  | prospectReplied (value : Bool)
  | previousOpened (value : Bool)
  | unknown
deriving DecidableEq, Repr

/-- `trigger_condition && Object.keys (trigger_condition).length > 0` -/
def TriggerCondition.nonEmpty : TriggerCondition → Bool
  | .empty => false
  | _ => true

structure OutreachSequence where
  id : Nat
  campaign_id : Nat
  step_number : Nat
  delay_days : Nat
  trigger_condition : TriggerCondition
  is_active : Bool
deriving DecidableEq, Repr

inductive EventType
  | sent
  | opened
  | clicked
  | replied
  | bounced
deriving DecidableEq, Repr

/-- email_events row.  `step_number` models the `metadata.step_number`
field written by EmailComposer.logEmailEvent (absent on reply events). -/
structure EmailEvent where
  prospect_id : Nat
  event_type : EventType
  timestamp : Int
  step_number : Option Nat
deriving DecidableEq, Repr

/-- campaign_progress row. The column is modelled as `Option Int` so that
the spec's "else null" phrasing is statable; the code always writes a value. -/
structure CampaignProgress where
  campaign_id : Nat
  prospect_id : Nat
  current_step : Nat
  last_sent_at : Int
  next_scheduled_at : Option Int
deriving DecidableEq, Repr

structure DB where
  campaigns : List Campaign
  prospects : List Prospect
  sequences : List OutreachSequence
  progress : List CampaignProgress
  events : List EmailEvent
deriving DecidableEq, Repr

/-- `from ('prospects').select (*).eq ('id', prospectId).single ()` -/
def findProspect (db : DB) (prospectId : Nat) : Option Prospect :=
  db.prospects.find? (fun p => p.id == prospectId)

/-- `from ('campaigns').select (*).eq ('id', campaignId).single ()` -/
def findCampaign (db : DB) (campaignId : Nat) : Option Campaign :=
  db.campaigns.find? (fun c => c.id == campaignId)

/-- the WHERE clause of the campaign_progress queries -/
def progressKey (campaignId prospectId : Nat) (r : CampaignProgress) : Bool :=
  r.campaign_id == campaignId && r.prospect_id == prospectId

/-- EmailSequenceExecutor.getCurrentProgress -/
def getCurrentProgress (db : DB) (campaignId prospectId : Nat) :
    Option CampaignProgress :=
  db.progress.find? (progressKey campaignId prospectId)

/-- EmailSequenceExecutor.evaluateTriggerCondition.  Returns `false` when the
prospect row cannot be fetched (the code logs the error and returns false). -/
def evaluateTriggerCondition (db : DB) (prospectId : Nat)
    (condition : TriggerCondition) (now : Int) : Bool :=
  match condition with
  | .prospectReplied true =>
    match findProspect db prospectId with
    | none => false
    | some p => p.engagement_status == .replied
  | .previousOpened true =>
    !(db.events.filter (fun e =>
        e.prospect_id == prospectId && e.event_type == EventType.opened &&
        decide (e.timestamp > now - 7 * 24 * 60 * 60))).isEmpty
  | _ => true

/-- EmailSequenceExecutor.shouldSendNextStep -/
def shouldSendNextStep (db : DB) (prospectId : Nat)
    (nextStep : OutreachSequence) (progress : Option CampaignProgress)
    (now : Int) : Bool :=
  match progress with
  | none => nextStep.step_number == 1 && nextStep.delay_days == 0
  | some prog =>
    if now - prog.last_sent_at < (nextStep.delay_days : Int) * 86400 then
      false
    else if prog.current_step + 1 != nextStep.step_number then
      false
    else if nextStep.trigger_condition.nonEmpty then
      evaluateTriggerCondition db prospectId nextStep.trigger_condition now
    else
      true

/-- loop body of EmailSequenceExecutor.getNextAvailableStep -/
def getNextAvailableStepAux (db : DB) (prospectId : Nat) (currentStep : Nat)
    (now : Int) : List OutreachSequence → Option OutreachSequence
  | [] => none
  | seq :: rest =>
    if seq.step_number != currentStep + 1 then
      getNextAvailableStepAux db prospectId currentStep now rest
    else if seq.trigger_condition.nonEmpty &&
        !evaluateTriggerCondition db prospectId seq.trigger_condition now then
      getNextAvailableStepAux db prospectId currentStep now rest
    else
      match findProspect db prospectId with
      | none => getNextAvailableStepAux db prospectId currentStep now rest
      | some p =>
        if p.engagement_status == EngagementStatus.meeting_scheduled ||
           p.engagement_status == EngagementStatus.completed then
          none
        else
          some seq

/-- EmailSequenceExecutor.getNextAvailableStep -/
def getNextAvailableStep (db : DB) (prospectId : Nat)
    (progress : Option CampaignProgress) (sequences : List OutreachSequence)
    (now : Int) : Option OutreachSequence :=
  getNextAvailableStepAux db prospectId
    (match progress with | some p => p.current_step | none => 0) now sequences

/-- EmailSequenceExecutor.updateProgress.  `next_scheduled_at` is computed
from `sequenceStep.delay_days` — the delay of the step that was just sent. -/
def updateProgress (db : DB) (campaignId prospectId : Nat)
    (sequenceStep : OutreachSequence) (now : Int) : DB :=
  let nextScheduled : Int := now + (sequenceStep.delay_days : Int) * 86400
  match getCurrentProgress db campaignId prospectId with
  | some _ =>
    { db with progress := db.progress.map (fun r =>
        if progressKey campaignId prospectId r then
          { r with current_step := sequenceStep.step_number,
                   last_sent_at := now,
                   next_scheduled_at := some nextScheduled }
        else r) }
  | none =>
    { db with progress :=
        ⟨campaignId, prospectId, sequenceStep.step_number, now,
          some nextScheduled⟩ :: db.progress }

/-- Result of a unit of work: the store state reached plus whether the unit
threw (the thrown exception propagates to the caller, the store keeps the
mutations already made). -/
structure Res where
  db : DB
  err : Bool
deriving Repr

/-- the store writes of a successful EmailComposer.composeAndSendEmail:
logEmailEvent inserts a `sent` EmailEvent carrying the template's
step_number, and updateProspectEngagement sets the prospect's
engagement_status to `contacted`. -/
def sendEffects (db : DB) (prospectId stepNumber : Nat) (now : Int) : DB :=
  { db with
    events := ⟨prospectId, EventType.sent, now, some stepNumber⟩ ::
      db.events,
    prospects := db.prospects.map (fun p =>
      if p.id == prospectId then
        { p with engagement_status := EngagementStatus.contacted }
      else p) }

/-- EmailComposer.composeAndSendEmail, restricted to the store effects the
claims are about: it reads prospect, campaign and template (throwing if any
is missing), performs the Gmail send (the `sendOk` oracle, applied to the
prospect and the template's step number), and on success applies
`sendEffects`.  On a send failure it throws before any write. -/
def composeAndSendEmail (sendOk : Nat → Nat → Bool) (db : DB)
    (campaignId prospectId templateId : Nat) (now : Int) : Res :=
  match findProspect db prospectId, findCampaign db campaignId,
        db.sequences.find? (fun s => s.id == templateId) with
  | some _, some _, some template =>
    if sendOk prospectId template.step_number then
      ⟨sendEffects db prospectId template.step_number now, false⟩
    else
      ⟨db, true⟩
  | _, _, _ => ⟨db, true⟩

/-- EmailSequenceExecutor.processProspectSequences.  The catch block logs and
rethrows, so an error surfaces as `err := true`. -/
def processProspectSequences (sendOk : Nat → Nat → Bool) (db : DB)
    (campaignId : Nat) (prospect : Prospect)
    (sequences : List OutreachSequence) (now : Int) : Res :=
  match getNextAvailableStep db prospect.id
      (getCurrentProgress db campaignId prospect.id) sequences now with
  | none => ⟨db, false⟩
  | some nextStep =>
    if shouldSendNextStep db prospect.id nextStep
        (getCurrentProgress db campaignId prospect.id) now then
      match findCampaign db campaignId with
      | none => ⟨db, true⟩
      | some _ =>
        if (composeAndSendEmail sendOk db campaignId prospect.id
            nextStep.id now).err then
          composeAndSendEmail sendOk db campaignId prospect.id nextStep.id
            now
        else
          ⟨updateProgress (composeAndSendEmail sendOk db campaignId
              prospect.id nextStep.id now).db campaignId prospect.id
            nextStep now, false⟩
    else
      ⟨db, false⟩

/-- the `for (const prospect of prospects)` loop of
processCampaignSequences: the first rethrown error aborts the loop. -/
def processProspects (sendOk : Nat → Nat → Bool) (campaignId : Nat)
    (sequences : List OutreachSequence) (now : Int) :
    List Prospect → DB → Res
  | [], db => ⟨db, false⟩
  | p :: rest, db =>
    let r := processProspectSequences sendOk db campaignId p sequences now
    if r.err then r
    else processProspects sendOk campaignId sequences now rest r.db

def insertByStep (s : OutreachSequence) :
    List OutreachSequence → List OutreachSequence
  | [] => [s]
  | t :: rest =>
    if s.step_number ≤ t.step_number then s :: t :: rest
    else t :: insertByStep s rest

/-- `.order ('step_number', ascending)` -/
def sortByStep : List OutreachSequence → List OutreachSequence
  | [] => []
  | s :: rest => insertByStep s (sortByStep rest)

/-- EmailSequenceExecutor.getOutreachSequences -/
def getOutreachSequences (db : DB) (campaignId : Nat) :
    List OutreachSequence :=
  sortByStep (db.sequences.filter (fun s =>
    s.campaign_id == campaignId && s.is_active))

/-- EmailSequenceExecutor.processCampaignSequences -/
def processCampaignSequences (sendOk : Nat → Nat → Bool) (db : DB)
    (campaignId : Nat) (now : Int) : Res :=
  let prospects := db.prospects.filter (fun p => p.campaign_id == campaignId)
  let sequences := getOutreachSequences db campaignId
  processProspects sendOk campaignId sequences now prospects db

/-- the `for (const campaign of campaigns)` loop of executeSequences -/
def processCampaigns (sendOk : Nat → Nat → Bool) (now : Int) :
    List Nat → DB → Res
  | [], db => ⟨db, false⟩
  | cid :: rest, db =>
    let r := processCampaignSequences sendOk db cid now
    if r.err then r
    else processCampaigns sendOk now rest r.db

/-- EmailSequenceExecutor.executeSequences -/
def executeSequences (sendOk : Nat → Nat → Bool) (db : DB) (now : Int) :
    Res :=
  processCampaigns sendOk now
    ((db.campaigns.filter (fun c => c.status == CampaignStatus.active)).map
      (fun c => c.id)) db

/-- EmailSequenceExecutor.resumeSequence: when a progress row exists, the
prospect's engagement_status is set to `contacted` unconditionally. -/
def resumeSequence (db : DB) (campaignId prospectId : Nat) : DB :=
  match getCurrentProgress db campaignId prospectId with
  | none => db
  | some _ =>
    { db with prospects := db.prospects.map (fun p =>
        if p.id == prospectId then
          { p with engagement_status := EngagementStatus.contacted }
        else p) }

/-! ## CampaignStatusTracker -/

def campaignProspects (db : DB) (campaignId : Nat) : List Prospect :=
  db.prospects.filter (fun p => p.campaign_id == campaignId)

def engagedFinal (p : Prospect) : Bool :=
  p.engagement_status == EngagementStatus.completed ||
  p.engagement_status == EngagementStatus.meeting_scheduled

/-- CampaignStatusTracker.completeCampaign -/
def completeCampaign (db : DB) (campaignId : Nat) (now : Int) : DB :=
  { db with campaigns := db.campaigns.map (fun c =>
      if c.id == campaignId then
        { c with status := CampaignStatus.completed, completed_at := some now }
      else c) }

/-- CampaignStatusTracker.evaluateCampaignCompletion: `total` is the
prospect count of the campaign, `finalDone` counts those with
engagement_status in \x7bcompleted, meeting_scheduled\x7d. -/
def evaluateCampaignCompletion (db : DB) (campaignId : Nat) (now : Int) :
    DB :=
  if (campaignProspects db campaignId).length == 0 then
    completeCampaign db campaignId now
  else if ((campaignProspects db campaignId).filter engagedFinal).length ==
      (campaignProspects db campaignId).length then
    completeCampaign db campaignId now
  else
    db

/-- CampaignStatusTracker.updateCampaignStatusByEngagement -/
def updateCampaignStatusByEngagement (db : DB) (now : Int) : DB :=
  ((db.campaigns.filter (fun c =>
      c.status == CampaignStatus.active)).map (fun c => c.id)).foldl
    (fun d cid => evaluateCampaignCompletion d cid now) db

/-! ## ReplyDetectionService -/

/-- the classifier output fields read by handleAnalysisResult -/
structure ReplyAnalysis where
  meetingIntent : Bool
  needsInfo : Bool
  objection : Option String
  interested : Bool
  notInterested : Bool
deriving DecidableEq, Repr

/-- JS truthiness of `analysis.objection` (a string or null) -/
def objectionFlag : Option String → Bool
  | none => false
  | some s => s != ""

/-- ReplyDetectionService.updateProspectStatus: unconditional
`update (engagement_status).eq ('email', email)`. -/
def updateProspectStatus (db : DB) (email : String)
    (status : EngagementStatus) : DB :=
  { db with prospects := db.prospects.map (fun p =>
      if p.email == email then { p with engagement_status := status }
      else p) }

/-- ReplyDetectionService.handleAnalysisResult: the if/else-if chain over
the classifier output (meetingIntent first, notInterested last). -/
def handleAnalysisResult (db : DB) (fromEmail : String)
    (analysis : ReplyAnalysis) : DB :=
  match db.prospects.find? (fun p => p.email == fromEmail) with
  | none => db
  | some _ =>
    if analysis.meetingIntent then
      updateProspectStatus db fromEmail EngagementStatus.meeting_scheduled
    else if analysis.needsInfo then db
    else if objectionFlag analysis.objection then db
    else if analysis.interested then db
    else if analysis.notInterested then
      updateProspectStatus db fromEmail EngagementStatus.completed
    else db

/-- the engagement-status slice of ReplyDetectionService.processReply:
analyzeReplyContent (which ends in handleAnalysisResult) runs first, and
only afterwards is the prospect set to `replied` (line 165 of the source). -/
def processReplyEngagement (db : DB) (fromEmail : String)
    (analysis : ReplyAnalysis) : DB :=
  updateProspectStatus (handleAnalysisResult db fromEmail analysis)
    fromEmail EngagementStatus.replied


/-! ## Concrete stores used as witnesses and counterexamples -/

/-- one active campaign, two fresh prospects, one zero-delay first step -/
def dbTwo : DB :=
  ⟨[⟨1, 10, CampaignStatus.active, none⟩],
   [⟨1, 1, "a", EngagementStatus.fresh⟩, ⟨2, 1, "b", EngagementStatus.fresh⟩],
   [⟨100, 1, 1, 0, TriggerCondition.empty, true⟩],
   [], []⟩

/-- Gmail send fails exactly for prospect 1 -/
def okExceptOne : Nat → Nat → Bool := fun pid _ => pid != 1

/-- Gmail send always succeeds -/
def okAll : Nat → Nat → Bool := fun _ _ => true

/-- Gmail send always fails -/
def okNone : Nat → Nat → Bool := fun _ _ => false

def prospectOne : Prospect := ⟨1, 1, "a", EngagementStatus.fresh⟩

def prospectTwo : Prospect := ⟨2, 1, "b", EngagementStatus.fresh⟩

/-- one prospect that already replied -/
def dbReplied : DB := ⟨[], [⟨1, 1, "a", EngagementStatus.replied⟩], [], [], []⟩

/-- classifier output flagging both meeting intent and not-interested -/
def anBoth : ReplyAnalysis := ⟨true, false, none, false, true⟩

/-- classifier output with every flag off -/
def anNeutral : ReplyAnalysis := ⟨false, false, none, false, false⟩

/-- one prospect already at meeting_scheduled -/
def dbMeeting : DB :=
  ⟨[], [⟨1, 1, "a", EngagementStatus.meeting_scheduled⟩], [],
   [⟨1, 1, 1, 0, some 0⟩], []⟩

/-- steps 1 (delay 0) and 2 (delay 3) of campaign 1 -/
def dbSteps : DB :=
  ⟨[], [], [⟨100, 1, 1, 0, TriggerCondition.empty, true⟩,
            ⟨101, 1, 2, 3, TriggerCondition.empty, true⟩], [], []⟩

/-- campaign 1's first step, delay_days 0 -/
def stepOne : OutreachSequence := ⟨100, 1, 1, 0, TriggerCondition.empty, true⟩

/-- as dbSteps but with no step after step 1 -/
def dbLastStep : DB :=
  ⟨[], [], [⟨100, 1, 1, 0, TriggerCondition.empty, true⟩], [], []⟩

/-- active campaign whose single prospect has completed -/
def dbDone : DB :=
  ⟨[⟨1, 10, CampaignStatus.active, none⟩],
   [⟨1, 1, "a", EngagementStatus.completed⟩],
   [], [], []⟩

/-- a replied prospect together with a fresh `opened` event -/
def dbOpened : DB :=
  ⟨[], [⟨1, 1, "a", EngagementStatus.replied⟩], [], [],
   [⟨1, EventType.opened, 100, none⟩]⟩

/-! ## Observation helpers used to state the claims -/

/-- all email_events rows of one prospect -/
def eventsFor (db : DB) (prospectId : Nat) : List EmailEvent :=
  db.events.filter (fun e => e.prospect_id == prospectId)

/-- number of `sent` events recorded for a prospect -/
def sentTo (db : DB) (prospectId : Nat) : Nat :=
  ((eventsFor db prospectId).filter
    (fun e => e.event_type == EventType.sent)).length

/-- number of `sent` events recorded for a prospect with a given
step_number -/
def sentCount (db : DB) (prospectId stepNumber : Nat) : Nat :=
  ((eventsFor db prospectId).filter (fun e =>
    e.event_type == EventType.sent &&
    e.step_number == some stepNumber)).length

/-- (id, campaign_id) of every prospect row, in store order -/
def prospectKeys (db : DB) : List (Nat × Nat) :=
  db.prospects.map (fun p => (p.id, p.campaign_id))

/-- all campaign_progress rows of one prospect -/
def progressForP (db : DB) (prospectId : Nat) : List CampaignProgress :=
  db.progress.filter (fun r => r.prospect_id == prospectId)

/-- the `current_step` cursor, 0 when no progress row exists -/
def curStepD (db : DB) (campaignId prospectId : Nat) : Nat :=
  match getCurrentProgress db campaignId prospectId with
  | some r => r.current_step
  | none => 0

/-! ## General list lemmas -/

theorem find?_map_pres {α : Type} (f : α → α) (q : α → Bool)
    (h : ∀ a, q (f a) = q a) :
    ∀ l : List α, (l.map f).find? q = (l.find? q).map f := by
  intro l
  induction l with
  | nil => rfl
  | cons a t ih =>
    cases hq : q a with
    | true => simp [List.find?_cons, h, hq]
    | false => simp [List.find?_cons, h, hq, ih]

theorem filter_map_pres {α : Type} (f : α → α) (q : α → Bool)
    (hq : ∀ a, q (f a) = q a) (hid : ∀ a, q a = true → f a = a) :
    ∀ l : List α, (l.map f).filter q = l.filter q := by
  intro l
  induction l with
  | nil => rfl
  | cons a t ih =>
    cases h : q a with
    | true => simp [List.filter_cons, hq, h, hid a h, ih]
    | false => simp [List.filter_cons, hq, h, ih]

theorem find?_key_unique {α : Type} (key : α → Nat) :
    ∀ (l : List α), (l.map key).Nodup → ∀ a ∈ l,
      l.find? (fun b => key b == key a) = some a := by
  intro l
  induction l with
  | nil => intro _ a ha; cases ha
  | cons b t ih =>
    intro hnd a ha
    simp only [List.map_cons, List.nodup_cons] at hnd
    rcases List.mem_cons.mp ha with rfl | hat
    · simp [List.find?_cons]
    · have hne : key b ≠ key a := by
        intro he
        exact hnd.1 (he ▸ List.mem_map_of_mem key hat)
      simp [List.find?_cons, beq_eq_false_iff_ne.mpr hne, ih hnd.2 a hat]

theorem find?_congr_keys {α : Type} (key : α → Nat × Nat)
    (qk : Nat × Nat → Bool) :
    ∀ (l₁ l₂ : List α), l₁.map key = l₂.map key →
      (l₁.find? (fun a => qk (key a))).map key =
      (l₂.find? (fun a => qk (key a))).map key := by
  intro l₁
  induction l₁ with
  | nil =>
    intro l₂ h
    cases l₂ with
    | nil => rfl
    | cons b u => simp at h
  | cons a t ih =>
    intro l₂ h
    cases l₂ with
    | nil => simp at h
    | cons b u =>
      simp only [List.map_cons, List.cons.injEq] at h
      have hb : qk (key b) = qk (key a) := by rw [h.1]
      cases hq : qk (key a) with
      | true =>
        have e1 : List.find? (fun x => qk (key x)) (a :: t) = some a :=
          List.find?_cons_of_pos t hq
        have e2 : List.find? (fun x => qk (key x)) (b :: u) = some b :=
          List.find?_cons_of_pos u (hb.trans hq)
        rw [e1, e2]
        simp [h.1]
      | false =>
        have e1 : List.find? (fun x => qk (key x)) (a :: t) =
            List.find? (fun x => qk (key x)) t :=
          List.find?_cons_of_neg t (by simp [hq])
        have e2 : List.find? (fun x => qk (key x)) (b :: u) =
            List.find? (fun x => qk (key x)) u :=
          List.find?_cons_of_neg u (by simp [hb, hq])
        rw [e1, e2]
        exact ih u h.2

theorem find?_filter_of_imp {α : Type} (q r : α → Bool)
    (h : ∀ a, q a = true → r a = true) :
    ∀ l : List α, (l.filter r).find? q = l.find? q := by
  intro l
  induction l with
  | nil => rfl
  | cons a t ih =>
    cases hq : q a with
    | true => simp [List.filter_cons, h a hq, List.find?_cons, hq]
    | false =>
      cases hr : r a with
      | true => simp [List.filter_cons, hr, List.find?_cons, hq, ih]
      | false => simp [List.filter_cons, hr, List.find?_cons, hq, ih]

theorem nonEmpty_eq_false {c : TriggerCondition} :
    c.nonEmpty = false ↔ c = TriggerCondition.empty := by
  cases c <;> simp [TriggerCondition.nonEmpty]

/-! ## Claim theorems -/

/-- C4: `shouldSendNextStep` returns true exactly under the spec's send
condition: with no Progress row, true iff the candidate has step_number 1
and delay_days 0; with a Progress row, true iff the delay has elapsed
(boundary included), `current_step + 1` equals the candidate's step_number,
and the candidate's trigger condition (if non-empty) holds. -/
theorem claim_C4_shouldSend_spec (db : DB) (prospectId : Nat)
    (nextStep : OutreachSequence) (prog : CampaignProgress) (now : Int) :
    (shouldSendNextStep db prospectId nextStep none now =
      (nextStep.step_number == 1 && nextStep.delay_days == 0))
    ∧ (shouldSendNextStep db prospectId nextStep (some prog) now = true ↔
        ((nextStep.delay_days : Int) * 86400 ≤ now - prog.last_sent_at ∧
         prog.current_step + 1 = nextStep.step_number ∧
         (nextStep.trigger_condition = TriggerCondition.empty ∨
           evaluateTriggerCondition db prospectId
             nextStep.trigger_condition now = true))) := by
  refine ⟨rfl, ?_⟩
  by_cases h1 : now - prog.last_sent_at < (nextStep.delay_days : Int) * 86400
  · simp only [shouldSendNextStep, if_pos h1]
    constructor
    · intro h; cases h
    · rintro ⟨hle, -, -⟩; omega
  · simp only [shouldSendNextStep, if_neg h1]
    by_cases h2 : prog.current_step + 1 = nextStep.step_number
    · rw [if_neg (by simp [h2])]
      by_cases h3 : nextStep.trigger_condition = TriggerCondition.empty
      · rw [if_neg (by simp [h3, TriggerCondition.nonEmpty])]
        simp only [true_iff]
        exact ⟨by omega, h2, Or.inl h3⟩
      · rw [if_pos (by
          cases hne : nextStep.trigger_condition.nonEmpty
          · exact absurd (nonEmpty_eq_false.mp hne) h3
          · rfl)]
        constructor
        · intro h; exact ⟨by omega, h2, Or.inr h⟩
        · rintro ⟨-, -, h | h⟩
          · exact absurd h h3
          · exact h
    · rw [if_pos (by simp [h2])]
      constructor
      · intro h; cases h
      · rintro ⟨-, he, -⟩; exact absurd he h2

/-- C10: the trigger evaluator computes exactly the spec's condition
semantics: prospect_replied/true holds iff the prospect's engagement_status
is `replied`; previous_opened/true holds iff an `opened` EmailEvent exists
for the prospect within the last 7 days; every other condition evaluates
to true. -/
theorem claim_C10_trigger_semantics (db : DB) (prospectId : Nat) (now : Int)
    (p : Prospect) :
    (findProspect db prospectId = some p →
      (evaluateTriggerCondition db prospectId
          (TriggerCondition.prospectReplied true) now = true ↔
        p.engagement_status = EngagementStatus.replied))
    ∧ (evaluateTriggerCondition db prospectId
          (TriggerCondition.previousOpened true) now = true ↔
        ∃ e ∈ db.events, e.prospect_id = prospectId ∧
          e.event_type = EventType.opened ∧
          now - 7 * 24 * 60 * 60 < e.timestamp)
    ∧ (∀ c : TriggerCondition, c ≠ TriggerCondition.prospectReplied true →
        c ≠ TriggerCondition.previousOpened true →
        evaluateTriggerCondition db prospectId c now = true) := by
  refine ⟨?_, ?_, ?_⟩
  · intro h
    simp [evaluateTriggerCondition, h]
  · simp only [evaluateTriggerCondition]
    rw [Bool.not_eq_true', List.isEmpty_eq_false]
    constructor
    · intro h
      rcases List.exists_mem_of_ne_nil _ h with ⟨e, he⟩
      have := List.mem_filter.mp he
      refine ⟨e, this.1, ?_⟩
      have h2 := this.2
      simp only [Bool.and_eq_true, beq_iff_eq, decide_eq_true_eq] at h2
      exact ⟨h2.1.1, h2.1.2, by omega⟩
    · rintro ⟨e, he, h1, h2, h3⟩
      intro hnil
      have : e ∈ db.events.filter (fun e =>
          e.prospect_id == prospectId && e.event_type == EventType.opened &&
          decide (e.timestamp > now - 7 * 24 * 60 * 60)) := by
        refine List.mem_filter.mpr ⟨he, ?_⟩
        simp only [Bool.and_eq_true, beq_iff_eq, decide_eq_true_eq]
        exact ⟨⟨h1, h2⟩, by omega⟩
      rw [hnil] at this
      cases this
  · intro c h1 h2
    rcases c with _ | v | v | _
    · rfl
    · cases v
      · rfl
      · exact absurd rfl h1
    · cases v
      · rfl
      · exact absurd rfl h2
    · rfl

theorem getNextAvailableStepAux_terminal (db : DB) (prospectId : Nat)
    (cur : Nat) (now : Int) (p : Prospect)
    (hfind : findProspect db prospectId = some p)
    (hterm : (p.engagement_status == EngagementStatus.meeting_scheduled ||
              p.engagement_status == EngagementStatus.completed) = true) :
    ∀ seqs, getNextAvailableStepAux db prospectId cur now seqs = none := by
  intro seqs
  induction seqs with
  | nil => rfl
  | cons s rest ih =>
    simp only [getNextAvailableStepAux]
    by_cases h1 : (s.step_number != cur + 1) = true
    · rw [if_pos h1]; exact ih
    · rw [if_neg h1]
      by_cases h2 : (s.trigger_condition.nonEmpty &&
          !evaluateTriggerCondition db prospectId s.trigger_condition now) =
          true
      · rw [if_pos h2]; exact ih
      · rw [if_neg h2]
        simp only [hfind]
        rw [if_pos hterm]

/-- C9: for a prospect whose engagement_status is meeting_scheduled or
completed, getNextAvailableStep returns no step, so
processProspectSequences performs no send (the store is returned
unchanged and nothing is thrown), regardless of elapsed time. -/
theorem claim_C9_terminal_halts (db : DB) (prospectId : Nat)
    (progress : Option CampaignProgress) (sequences : List OutreachSequence)
    (now : Int) (p : Prospect)
    (hfind : findProspect db prospectId = some p)
    (hterm : p.engagement_status = EngagementStatus.meeting_scheduled ∨
             p.engagement_status = EngagementStatus.completed) :
    getNextAvailableStep db prospectId progress sequences now = none ∧
    ∀ (sendOk : Nat → Nat → Bool) (campaignId : Nat) (pr : Prospect),
      pr.id = prospectId →
      processProspectSequences sendOk db campaignId pr sequences now =
        ⟨db, false⟩ := by
  have hb : (p.engagement_status == EngagementStatus.meeting_scheduled ||
             p.engagement_status == EngagementStatus.completed) = true := by
    rcases hterm with h | h <;> simp [h]
  have hnone : ∀ prog : Option CampaignProgress,
      getNextAvailableStep db prospectId prog sequences now = none := by
    intro prog
    exact getNextAvailableStepAux_terminal db prospectId _ now p hfind hb
      sequences
  refine ⟨hnone progress, ?_⟩
  intro sendOk campaignId pr hpr
  simp only [processProspectSequences, hpr, hnone]

theorem updateProgress_events (d : DB) (c p : Nat) (s : OutreachSequence)
    (now : Int) : (updateProgress d c p s now).events = d.events := by
  unfold updateProgress
  cases getCurrentProgress d c p <;> rfl

theorem updateProgress_campaigns (d : DB) (c p : Nat) (s : OutreachSequence)
    (now : Int) : (updateProgress d c p s now).campaigns = d.campaigns := by
  unfold updateProgress
  cases getCurrentProgress d c p <;> rfl

theorem updateProgress_prospects (d : DB) (c p : Nat) (s : OutreachSequence)
    (now : Int) : (updateProgress d c p s now).prospects = d.prospects := by
  unfold updateProgress
  cases getCurrentProgress d c p <;> rfl

theorem updateProgress_sequences (d : DB) (c p : Nat) (s : OutreachSequence)
    (now : Int) : (updateProgress d c p s now).sequences = d.sequences := by
  unfold updateProgress
  cases getCurrentProgress d c p <;> rfl

/-- C8 counterexample: sending step 1 (delay_days 0) of a campaign whose
step 2 has delay_days 3 stores next_scheduled_at = now + 0 days — the sent
step's own delay — not now + 3 days as the claim states; and when no later
step exists the stored value is still non-null. -/
theorem claim_C8_ce :
    (getCurrentProgress (updateProgress dbSteps 1 1 stepOne 0) 1 1).map
        (fun r => r.next_scheduled_at) = some (some 0) ∧
    ¬ (getCurrentProgress (updateProgress dbSteps 1 1 stepOne 0) 1 1).map
        (fun r => r.next_scheduled_at) = some (some 259200) ∧
    (getCurrentProgress (updateProgress dbLastStep 1 1 stepOne 0) 1 1).map
        (fun r => r.next_scheduled_at) = some (some 0) ∧
    ¬ (getCurrentProgress (updateProgress dbLastStep 1 1 stepOne 0) 1 1).map
        (fun r => r.next_scheduled_at) = some none := by
  decide

theorem updateProgress_lookup (db : DB) (campaignId prospectId : Nat)
    (step : OutreachSequence) (now : Int) :
    getCurrentProgress (updateProgress db campaignId prospectId step now)
      campaignId prospectId =
    some ⟨campaignId, prospectId, step.step_number, now,
      some (now + (step.delay_days : Int) * 86400)⟩ := by
  unfold updateProgress
  cases h : getCurrentProgress db campaignId prospectId with
  | none =>
    simp only [getCurrentProgress]
    rw [List.find?_cons_of_pos _ (by simp [progressKey])]
  | some r =>
    have hpres : ∀ u : CampaignProgress,
        progressKey campaignId prospectId
          (if progressKey campaignId prospectId u then
            { u with current_step := step.step_number, last_sent_at := now,
                     next_scheduled_at :=
                       some (now + (step.delay_days : Int) * 86400) }
          else u) = progressKey campaignId prospectId u := by
      intro u
      by_cases hu : progressKey campaignId prospectId u = true
      · rw [if_pos hu]
        simp only [progressKey]
      · rw [if_neg hu]
    have hr : progressKey campaignId prospectId r = true :=
      List.find?_some h
    have h1 : r.campaign_id = campaignId := by
      have := hr
      simp only [progressKey, Bool.and_eq_true, beq_iff_eq] at this
      exact this.1
    have h2 : r.prospect_id = prospectId := by
      have := hr
      simp only [progressKey, Bool.and_eq_true, beq_iff_eq] at this
      exact this.2
    simp only [getCurrentProgress] at h ⊢
    rw [find?_map_pres _ _ hpres, h, Option.map_some', if_pos hr, h1, h2]


/-- C8 (amended): after a successful send of step N, updateProgress leaves
the Progress row for the prospect with current_step = N, last_sent_at =
now, and next_scheduled_at = now plus step N's own delay_days — always a
value, never null. -/
theorem claim_C8_amended (db : DB) (campaignId prospectId : Nat)
    (step : OutreachSequence) (now : Int) :
    getCurrentProgress (updateProgress db campaignId prospectId step now)
      campaignId prospectId =
    some ⟨campaignId, prospectId, step.step_number, now,
      some (now + (step.delay_days : Int) * 86400)⟩ :=
  updateProgress_lookup db campaignId prospectId step now

/-- C3 counterexample: for a classifier result with notInterested = true
and meetingIntent = true, handleAnalysisResult sets the prospect to
meeting_scheduled, not completed as the claim requires. -/
theorem claim_C3_ce :
    anBoth.notInterested = true ∧ anBoth.meetingIntent = true ∧
    (handleAnalysisResult dbReplied "a" anBoth).prospects =
      [⟨1, 1, "a", EngagementStatus.meeting_scheduled⟩] ∧
    EngagementStatus.meeting_scheduled ≠ EngagementStatus.completed := by
  decide

/-- C3 (amended): handleAnalysisResult resolves the classifier output with
meeting_intent taking priority: if meetingIntent is true the prospect
becomes meeting_scheduled (even when notInterested is also true); else if
any of needsInfo, objection, interested holds the store is unchanged (the
prospect stays as it was); else if notInterested the prospect becomes
completed; else the store is unchanged. -/
theorem claim_C3_amended (db : DB) (email : String) (a : ReplyAnalysis)
    (hfound :
      (db.prospects.find? (fun p => p.email == email)).isSome = true) :
    (a.meetingIntent = true →
      handleAnalysisResult db email a =
        updateProspectStatus db email EngagementStatus.meeting_scheduled)
    ∧ (a.meetingIntent = false →
        (a.needsInfo = true ∨ objectionFlag a.objection = true ∨
         a.interested = true) →
        handleAnalysisResult db email a = db)
    ∧ (a.meetingIntent = false → a.needsInfo = false →
        objectionFlag a.objection = false → a.interested = false →
        a.notInterested = true →
        handleAnalysisResult db email a =
          updateProspectStatus db email EngagementStatus.completed)
    ∧ (a.meetingIntent = false → a.needsInfo = false →
        objectionFlag a.objection = false → a.interested = false →
        a.notInterested = false →
        handleAnalysisResult db email a = db) := by
  obtain ⟨p, hp⟩ := Option.isSome_iff_exists.mp hfound
  refine ⟨?_, ?_, ?_, ?_⟩
  · intro h1
    simp [handleAnalysisResult, hp, h1]
  · rintro h1 (h | h | h) <;> simp [handleAnalysisResult, hp, h1, h]
  · intro h1 h2 h3 h4 h5
    simp [handleAnalysisResult, hp, h1, h2, h3, h4, h5]
  · intro h1 h2 h3 h4 h5
    simp [handleAnalysisResult, hp, h1, h2, h3, h4, h5]

/-- C3 (amended) witness at a concrete store and classifier result -/
theorem claim_C3_amended_witness :
    handleAnalysisResult dbReplied "a" anBoth =
      updateProspectStatus dbReplied "a"
        EngagementStatus.meeting_scheduled :=
  (claim_C3_amended dbReplied "a" anBoth (by decide)).1 rfl

theorem status_of_mem_setWhere (keyf : Prospect → Bool)
    (st : EngagementStatus) (l : List Prospect) (q : Prospect)
    (hq : q ∈ l.map (fun p =>
      if keyf p then { p with engagement_status := st } else p))
    (hk : keyf q = true) : q.engagement_status = st := by
  simp only [List.mem_map] at hq
  obtain ⟨r, hr, hfr⟩ := hq
  by_cases h : keyf r = true
  · rw [if_pos h] at hfr
    rw [← hfr]
  · rw [if_neg h] at hfr
    rw [← hfr] at hk
    exact absurd hk h

/-- C5 counterexample: a prospect at meeting_scheduled is regressed to
replied by the reply-handling flow (the unconditional replied write runs
after the classifier), contradicting the claimed monotonicity. -/
theorem claim_C5_ce :
    dbMeeting.prospects =
      [⟨1, 1, "a", EngagementStatus.meeting_scheduled⟩] ∧
    (processReplyEngagement dbMeeting "a" anNeutral).prospects =
      [⟨1, 1, "a", EngagementStatus.replied⟩] ∧
    EngagementStatus.replied ≠ EngagementStatus.meeting_scheduled := by
  decide

/-- C5 (amended): engagement-status writes are unconditional: processing an
inbound reply leaves every prospect row carrying the reply's email address
at `replied`, whatever its previous status (meeting_scheduled and completed
included), and resumeSequence sets `contacted` from any state whenever a
progress row exists. -/
theorem claim_C5_amended (db : DB) (email : String) (a : ReplyAnalysis)
    (campaignId prospectId : Nat) (q : Prospect) :
    (q ∈ (processReplyEngagement db email a).prospects → q.email = email →
      q.engagement_status = EngagementStatus.replied)
    ∧ (getCurrentProgress db campaignId prospectId ≠ none →
        q ∈ (resumeSequence db campaignId prospectId).prospects →
        q.id = prospectId →
        q.engagement_status = EngagementStatus.contacted) := by
  constructor
  · intro hq he
    refine status_of_mem_setWhere (fun p => p.email == email) _
      (handleAnalysisResult db email a).prospects q ?_ (by simp [he])
    simpa only [processReplyEngagement, updateProspectStatus] using hq
  · intro hprog hq hid
    cases hp : getCurrentProgress db campaignId prospectId with
    | none => exact absurd hp hprog
    | some r =>
      refine status_of_mem_setWhere (fun p => p.id == prospectId) _
        db.prospects q ?_ (by simp [hid])
      simpa only [resumeSequence, hp] using hq

/-- C5 (amended) witness at a concrete store -/
theorem claim_C5_amended_witness :
    (⟨1, 1, "a", EngagementStatus.replied⟩ : Prospect) ∈
        (processReplyEngagement dbMeeting "a" anNeutral).prospects ∧
    (⟨1, 1, "a", EngagementStatus.replied⟩ : Prospect).engagement_status =
      EngagementStatus.replied :=
  ⟨by decide,
   (claim_C5_amended dbMeeting "a" anNeutral 1 1 _).1 (by decide) rfl⟩

/-- C2 counterexample: with two eligible prospects and the Gmail send
failing for the first, executeSequences rethrows and the second prospect is
never processed — it receives no email although the all-success run sends
to it.  One prospect's failure aborts the batch. -/
theorem claim_C2_ce :
    (executeSequences okExceptOne dbTwo 0).err = true ∧
    eventsFor (executeSequences okExceptOne dbTwo 0).db 2 = [] ∧
    eventsFor (executeSequences okAll dbTwo 0).db 2 =
      [⟨2, EventType.sent, 0, some 1⟩] := by
  decide

/-- C2 (amended): a failure while processing one prospect is logged and
rethrown: the prospect loop stops at the failing prospect, leaving the
remaining prospects of that campaign unprocessed, and at the campaign
level a failing campaign stops the remaining campaigns of the
invocation. -/
theorem claim_C2_amended (sendOk : Nat → Nat → Bool) (db : DB)
    (campaignId : Nat) (sequences : List OutreachSequence) (now : Int)
    (p : Prospect) (rest : List Prospect)
    (h : (processProspectSequences sendOk db campaignId p sequences
        now).err = true) :
    processProspects sendOk campaignId sequences now (p :: rest) db =
      processProspectSequences sendOk db campaignId p sequences now
    ∧ ∀ (cid : Nat) (cids : List Nat) (d : DB),
        (processCampaignSequences sendOk d cid now).err = true →
        processCampaigns sendOk now (cid :: cids) d =
          processCampaignSequences sendOk d cid now := by
  constructor
  · simp [processProspects, h]
  · intro cid cids d h2
    simp [processCampaigns, h2]

/-- C2 (amended) witness at the concrete store -/
theorem claim_C2_amended_witness :
    processProspects okExceptOne 1 (getOutreachSequences dbTwo 1) 0
        [prospectOne, prospectTwo] dbTwo =
      processProspectSequences okExceptOne dbTwo 1 prospectOne
        (getOutreachSequences dbTwo 1) 0 :=
  (claim_C2_amended okExceptOne dbTwo 1 (getOutreachSequences dbTwo 1) 0
    prospectOne [prospectTwo] (by decide)).1

theorem ppseq_dichotomy (ok : Nat → Nat → Bool) (db : DB) (c : Nat)
    (p : Prospect) (seqs : List OutreachSequence) (now : Int) :
    (processProspectSequences ok db c p seqs now).db = db ∨
    ∃ nextStep template,
      getNextAvailableStep db p.id (getCurrentProgress db c p.id) seqs
        now = some nextStep ∧
      shouldSendNextStep db p.id nextStep (getCurrentProgress db c p.id)
        now = true ∧
      db.sequences.find? (fun s => s.id == nextStep.id) = some template ∧
      ok p.id template.step_number = true ∧
      processProspectSequences ok db c p seqs now =
        ⟨updateProgress (sendEffects db p.id template.step_number now) c
          p.id nextStep now, false⟩ := by
  unfold processProspectSequences composeAndSendEmail
  cases hna : getNextAvailableStep db p.id (getCurrentProgress db c p.id)
      seqs now with
  | none => left; simp [hna]
  | some nextStep =>
    cases hss : shouldSendNextStep db p.id nextStep
        (getCurrentProgress db c p.id) now with
    | false => left; simp [hna, hss]
    | true =>
      cases hfc : findCampaign db c with
      | none => left; simp [hna, hss, hfc]
      | some camp =>
        cases hfp : findProspect db p.id with
        | none => left; simp [hna, hss, hfc, hfp]
        | some pr =>
          cases hft : db.sequences.find? (fun s => s.id == nextStep.id) with
          | none => left; simp [hna, hss, hfc, hfp, hft]
          | some template =>
            cases hok : ok p.id template.step_number with
            | false => left; simp [hna, hss, hfc, hfp, hft, hok]
            | true =>
              refine Or.inr ⟨nextStep, template, rfl, hss, hft, hok, ?_⟩
              simp [hna, hss, hfc, hfp, hft, hok]

/-- C6: if the Gmail send fails for a prospect's next step, the store is
returned unchanged — the Progress row keeps its prior current_step,
last_sent_at and next_scheduled_at and no row is created — and, for any
send outcome, the progress table is only ever written together with a
successful send (a freshly logged `sent` event).  Progress is written only
after a successful send. -/
theorem claim_C6_failure_no_progress (sendOk : Nat → Nat → Bool) (db : DB)
    (campaignId : Nat) (prospect : Prospect)
    (sequences : List OutreachSequence) (now : Int)
    (hfail : ∀ n, sendOk prospect.id n = false) :
    (processProspectSequences sendOk db campaignId prospect sequences
        now).db = db
    ∧ ∀ ok : Nat → Nat → Bool,
        (processProspectSequences ok db campaignId prospect sequences
            now).db.progress ≠ db.progress →
        ∃ e : EmailEvent,
          (processProspectSequences ok db campaignId prospect sequences
              now).db.events = e :: db.events ∧
          e.event_type = EventType.sent ∧
          e.prospect_id = prospect.id := by
  constructor
  · rcases ppseq_dichotomy sendOk db campaignId prospect sequences now with
      h | ⟨nextStep, template, -, -, -, hok, -⟩
    · exact h
    · exact absurd hok (by simp [hfail template.step_number])
  · intro ok hne
    rcases ppseq_dichotomy ok db campaignId prospect sequences now with
      h | ⟨nextStep, template, -, -, -, -, hr⟩
    · exact absurd (by rw [h]) hne
    · refine ⟨⟨prospect.id, EventType.sent, now, some template.step_number⟩,
        ?_, rfl, rfl⟩
      rw [hr]
      simp only [updateProgress_events, sendEffects]

/-- C6 witness: concrete store, always-failing Gmail send -/
theorem claim_C6_witness :
    (processProspectSequences okNone dbTwo 1 prospectOne
        (getOutreachSequences dbTwo 1) 0).db = dbTwo :=
  (claim_C6_failure_no_progress okNone dbTwo 1 prospectOne
    (getOutreachSequences dbTwo 1) 0 (fun _ => rfl)).1

/-- C9 witness: a meeting_scheduled prospect at a concrete store -/
theorem claim_C9_witness :
    getNextAvailableStep dbMeeting 1 none [stepOne] 5 = none :=
  (claim_C9_terminal_halts dbMeeting 1 none [stepOne] 5
    ⟨1, 1, "a", EngagementStatus.meeting_scheduled⟩ (by decide)
    (Or.inl rfl)).1

/-- C10 witness: the three condition shapes evaluated at a concrete store -/
theorem claim_C10_witness :
    evaluateTriggerCondition dbOpened 1
      (TriggerCondition.prospectReplied true) 50 = true ∧
    evaluateTriggerCondition dbOpened 1
      (TriggerCondition.previousOpened true) 50 = true ∧
    evaluateTriggerCondition dbOpened 1 TriggerCondition.unknown 50 = true :=
  ⟨((claim_C10_trigger_semantics dbOpened 1 50
      ⟨1, 1, "a", EngagementStatus.replied⟩).1 (by decide)).mpr rfl,
   ((claim_C10_trigger_semantics dbOpened 1 50
      ⟨1, 1, "a", EngagementStatus.replied⟩).2.1).mpr
     ⟨⟨1, EventType.opened, 100, none⟩, by decide, rfl, rfl, by decide⟩,
   (claim_C10_trigger_semantics dbOpened 1 50
      ⟨1, 1, "a", EngagementStatus.replied⟩).2.2
     TriggerCondition.unknown (by decide) (by decide)⟩

/-! ## CampaignStatusTracker lemmas -/

theorem evalCC_prospects (d : DB) (cid : Nat) (now : Int) :
    (evaluateCampaignCompletion d cid now).prospects = d.prospects := by
  unfold evaluateCampaignCompletion completeCampaign
  split
  · rfl
  · split <;> rfl

theorem findCampaign_completeCampaign (d : DB) (x y : Nat) (now : Int) :
    findCampaign (completeCampaign d x now) y =
      (findCampaign d y).map (fun r =>
        if r.id == x then
          { r with status := CampaignStatus.completed,
                   completed_at := some now }
        else r) := by
  unfold findCampaign completeCampaign
  exact find?_map_pres _ _
    (fun a => by by_cases h : (a.id == x) = true <;> simp [h]) d.campaigns

theorem findCampaign_evalCC_ne (d : DB) (cid y : Nat) (now : Int)
    (h : y ≠ cid) :
    findCampaign (evaluateCampaignCompletion d cid now) y =
      findCampaign d y := by
  have key : findCampaign (completeCampaign d cid now) y =
      findCampaign d y := by
    rw [findCampaign_completeCampaign]
    cases hf : findCampaign d y with
    | none => rfl
    | some r =>
      have hr : r.id = y := by
        have := List.find?_some hf
        simpa using this
      simp [Option.map_some', hr, h]
  unfold evaluateCampaignCompletion
  split
  · exact key
  · split
    · exact key
    · rfl

theorem foldl_evalCC_prospects (now : Int) :
    ∀ (cids : List Nat) (d : DB),
      (List.foldl (fun x cid => evaluateCampaignCompletion x cid now) d
        cids).prospects = d.prospects := by
  intro cids
  induction cids with
  | nil => intro d; rfl
  | cons cid rest ih =>
    intro d
    rw [List.foldl_cons, ih, evalCC_prospects]

theorem foldl_evalCC_ne (now : Int) (y : Nat) :
    ∀ (cids : List Nat) (d : DB), y ∉ cids →
      findCampaign (List.foldl
        (fun x cid => evaluateCampaignCompletion x cid now) d cids) y =
      findCampaign d y := by
  intro cids
  induction cids with
  | nil => intro d _; rfl
  | cons cid rest ih =>
    intro d hy
    rw [List.foldl_cons, ih _ (fun hmem => hy (List.mem_cons_of_mem _ hmem)),
        findCampaign_evalCC_ne d cid y now
          (fun he => hy (he ▸ List.mem_cons_self cid rest))]

theorem findCampaign_evalCC_eq (d : DB) (now : Int) (c : Campaign)
    (hf : findCampaign d c.id = some c) :
    findCampaign (evaluateCampaignCompletion d c.id now) c.id =
      some (if (campaignProspects d c.id).length = 0 ∨
          (∀ p ∈ campaignProspects d c.id, engagedFinal p = true) then
        { c with status := CampaignStatus.completed,
                 completed_at := some now }
      else c) := by
  have hcc : findCampaign (completeCampaign d c.id now) c.id =
      some { c with status := CampaignStatus.completed,
                    completed_at := some now } := by
    rw [findCampaign_completeCampaign, hf, Option.map_some']
    simp
  unfold evaluateCampaignCompletion
  by_cases h0 : (campaignProspects d c.id).length = 0
  · rw [if_pos (by simpa using h0), hcc, if_pos (Or.inl h0)]
  · rw [if_neg (by simpa using h0)]
    by_cases hall : ∀ p ∈ campaignProspects d c.id, engagedFinal p = true
    · have hlen : ((campaignProspects d c.id).filter engagedFinal).length =
          (campaignProspects d c.id).length := by
        rw [List.filter_eq_self.mpr hall]
      rw [if_pos (by simpa using hlen), hcc, if_pos (Or.inr hall)]
    · have hlt : ((campaignProspects d c.id).filter engagedFinal).length ≠
          (campaignProspects d c.id).length := by
        intro he
        have heq2 : (campaignProspects d c.id).filter engagedFinal =
            campaignProspects d c.id :=
          List.Sublist.eq_of_length (List.filter_sublist _) he
        exact hall (fun p hp => List.filter_eq_self.mp heq2 p hp)
      rw [if_neg (by simpa using hlt), hf,
        if_neg (by rintro (h | h); exacts [h0 h, hall h])]

/-- C7: for every campaign with status active,
updateCampaignStatusByEngagement transitions it to completed and stamps
completed_at = now iff the campaign has zero prospects or every prospect is
completed or meeting_scheduled; otherwise the campaign row is left
unchanged. -/
theorem claim_C7_auto_completion (db : DB) (now : Int) (c : Campaign)
    (hnd : (db.campaigns.map (fun x => x.id)).Nodup)
    (hc : c ∈ db.campaigns) (hact : c.status = CampaignStatus.active) :
    findCampaign (updateCampaignStatusByEngagement db now) c.id =
      some (if (campaignProspects db c.id).length = 0 ∨
          (∀ p ∈ campaignProspects db c.id, engagedFinal p = true) then
        { c with status := CampaignStatus.completed,
                 completed_at := some now }
      else c) := by
  have hfdb : findCampaign db c.id = some c := by
    have := find?_key_unique (fun x : Campaign => x.id) db.campaigns hnd c hc
    simpa [findCampaign] using this
  have hmemf : c ∈ db.campaigns.filter
      (fun x => x.status == CampaignStatus.active) :=
    List.mem_filter.mpr ⟨hc, by simp [hact]⟩
  have hmemid : c.id ∈ (db.campaigns.filter
      (fun x => x.status == CampaignStatus.active)).map (fun x => x.id) :=
    List.mem_map_of_mem _ hmemf
  have hndid : ((db.campaigns.filter
      (fun x => x.status == CampaignStatus.active)).map
        (fun x => x.id)).Nodup :=
    hnd.sublist (List.Sublist.map _ (List.filter_sublist _))
  obtain ⟨l₁, l₂, hsplit⟩ := List.append_of_mem hmemid
  rw [hsplit] at hndid
  have hnd3 := List.nodup_append.mp hndid
  have hnotl₁ : c.id ∉ l₁ :=
    fun h => hnd3.2.2 h (List.mem_cons_self _ _)
  have hnotl₂ : c.id ∉ l₂ := (List.nodup_cons.mp hnd3.2.1).1
  unfold updateCampaignStatusByEngagement
  rw [hsplit, List.foldl_append, List.foldl_cons,
      foldl_evalCC_ne now c.id l₂ _ hnotl₂]
  have hf1 : findCampaign (List.foldl
      (fun x cid => evaluateCampaignCompletion x cid now) db l₁) c.id =
      some c := by
    rw [foldl_evalCC_ne now c.id l₁ db hnotl₁]
    exact hfdb
  rw [findCampaign_evalCC_eq _ now c hf1]
  have hcp : campaignProspects (List.foldl
      (fun x cid => evaluateCampaignCompletion x cid now) db l₁) c.id =
      campaignProspects db c.id := by
    unfold campaignProspects
    rw [foldl_evalCC_prospects]
  rw [hcp]

/-- C7 witness: an active campaign whose only prospect has completed -/
theorem claim_C7_witness :
    findCampaign (updateCampaignStatusByEngagement dbDone 7) 1 =
      some ⟨1, 10, CampaignStatus.completed, some 7⟩ := by
  have h := claim_C7_auto_completion dbDone 7
    ⟨1, 10, CampaignStatus.active, none⟩ (by decide)
    (by decide) rfl
  rw [h, if_pos]
  right
  intro p hp
  have : p = ⟨1, 1, "a", EngagementStatus.completed⟩ := by
    have := hp
    simp [campaignProspects, dbDone] at this
    exact this
  rw [this]
  rfl

/-! ## Executor preservation lemmas, towards the at-most-once theorem -/

theorem updateProgress_progress (d : DB) (c p : Nat) (s : OutreachSequence)
    (now : Int) :
    (updateProgress d c p s now).progress =
      match getCurrentProgress d c p with
      | some _ => d.progress.map (fun r =>
          if progressKey c p r then
            { r with current_step := s.step_number, last_sent_at := now,
                     next_scheduled_at :=
                       some (now + (s.delay_days : Int) * 86400) }
          else r)
      | none => ⟨c, p, s.step_number, now,
          some (now + (s.delay_days : Int) * 86400)⟩ :: d.progress := by
  unfold updateProgress
  cases getCurrentProgress d c p <;> rfl

theorem prospectKeys_sendEffects (d : DB) (pid n : Nat) (now : Int) :
    prospectKeys (sendEffects d pid n now) = prospectKeys d := by
  unfold prospectKeys sendEffects
  rw [List.map_map]
  exact List.map_congr_left (fun q hq => by
    by_cases h : q.id = pid <;> simp [h])

theorem prospectKeys_updateProgress (d : DB) (c p : Nat)
    (s : OutreachSequence) (now : Int) :
    prospectKeys (updateProgress d c p s now) = prospectKeys d := by
  unfold prospectKeys
  rw [updateProgress_prospects]

theorem progressForP_updateProgress_ne (d : DB) (c pid : Nat)
    (s : OutreachSequence) (now : Int) (Q : Nat) (hQ : Q ≠ pid) :
    progressForP (updateProgress d c pid s now) Q = progressForP d Q := by
  unfold progressForP
  rw [updateProgress_progress]
  cases h : getCurrentProgress d c pid with
  | none =>
    exact List.filter_cons_of_neg
      (fun hcontra => hQ (beq_iff_eq.mp hcontra).symm)
  | some r =>
    apply filter_map_pres
    · intro a
      by_cases ha : progressKey c pid a = true <;> simp [ha]
    · intro a ha
      rw [if_neg]
      intro hk
      have : a.prospect_id = pid := by
        simp only [progressKey, Bool.and_eq_true, beq_iff_eq] at hk
        exact hk.2
      rw [this] at ha
      simp only [beq_iff_eq] at ha
      exact hQ ha.symm

theorem getCurrentProgress_eq_progressForP (d : DB) (c P : Nat) :
    getCurrentProgress d c P =
      (progressForP d P).find? (progressKey c P) := by
  unfold getCurrentProgress progressForP
  refine (find?_filter_of_imp _ _ ?_ d.progress).symm
  intro a ha
  simp only [progressKey, Bool.and_eq_true] at ha
  exact ha.2

theorem curStepD_congr (d₁ d₂ : DB) (c P : Nat)
    (h : progressForP d₁ P = progressForP d₂ P) :
    getCurrentProgress d₁ c P = getCurrentProgress d₂ c P ∧
    curStepD d₁ c P = curStepD d₂ c P := by
  have hg : getCurrentProgress d₁ c P = getCurrentProgress d₂ c P := by
    rw [getCurrentProgress_eq_progressForP, h,
      ← getCurrentProgress_eq_progressForP]
  exact ⟨hg, by unfold curStepD; rw [hg]⟩

theorem findProspect_keys_congr (d₁ d₂ : DB) (P : Nat)
    (h : prospectKeys d₁ = prospectKeys d₂) :
    (findProspect d₁ P).map (fun q => (q.id, q.campaign_id)) =
    (findProspect d₂ P).map (fun q => (q.id, q.campaign_id)) := by
  unfold findProspect
  have := find?_congr_keys (fun q : Prospect => (q.id, q.campaign_id))
    (fun k => k.1 == P) d₁.prospects d₂.prospects h
  simpa using this

theorem prospect_ids_eq_keys_fst (d : DB) :
    d.prospects.map (fun q => q.id) = (prospectKeys d).map Prod.fst := by
  unfold prospectKeys
  rw [List.map_map]
  exact List.map_congr_left (fun a _ => rfl)

theorem getNextAvailableStepAux_mem (d : DB) (pid cur : Nat) (now : Int) :
    ∀ (seqs : List OutreachSequence) (s : OutreachSequence),
      getNextAvailableStepAux d pid cur now seqs = some s → s ∈ seqs := by
  intro seqs
  induction seqs with
  | nil => intro s h; cases h
  | cons t rest ih =>
    intro s h
    simp only [getNextAvailableStepAux] at h
    by_cases h1 : (t.step_number != cur + 1) = true
    · rw [if_pos h1] at h
      exact List.mem_cons_of_mem t (ih s h)
    · rw [if_neg h1] at h
      by_cases h2 : (t.trigger_condition.nonEmpty &&
          !evaluateTriggerCondition d pid t.trigger_condition now) = true
      · rw [if_pos h2] at h
        exact List.mem_cons_of_mem t (ih s h)
      · rw [if_neg h2] at h
        cases hf : findProspect d pid with
        | none =>
          rw [hf] at h
          exact List.mem_cons_of_mem t (ih s h)
        | some pr =>
          rw [hf] at h
          cases h3 : (pr.engagement_status ==
              EngagementStatus.meeting_scheduled ||
              pr.engagement_status == EngagementStatus.completed) with
          | true =>
            simp only [h3, if_true] at h
            cases h
          | false =>
            simp only [h3, if_false] at h
            cases h
            exact List.mem_cons_self t rest

theorem shouldSend_step_succ (d : DB) (pid : Nat) (step : OutreachSequence)
    (prog : Option CampaignProgress) (now : Int)
    (h : shouldSendNextStep d pid step prog now = true) :
    (prog = none → step.step_number = 1) ∧
    (∀ r, prog = some r → step.step_number = r.current_step + 1) := by
  cases prog with
  | none =>
    simp only [shouldSendNextStep, Bool.and_eq_true, beq_iff_eq] at h
    exact ⟨fun _ => h.1, fun r hr => by cases hr⟩
  | some r =>
    simp only [shouldSendNextStep] at h
    refine ⟨fun hco => (by cases hco), fun r2 hr2 => ?_⟩
    cases hr2
    by_cases h1 : now - r.last_sent_at < (step.delay_days : Int) * 86400
    · rw [if_pos h1] at h
      cases h
    · rw [if_neg h1] at h
      by_cases h2 : (r.current_step + 1 != step.step_number) = true
      · rw [if_pos h2] at h
        cases h
      · simp only [bne_iff_ne, ne_eq, not_not] at h2
        exact h2.symm

theorem mem_insertByStep (s x : OutreachSequence) :
    ∀ l : List OutreachSequence, x ∈ insertByStep s l → x = s ∨ x ∈ l := by
  intro l
  induction l with
  | nil =>
    intro h
    simp only [insertByStep] at h
    rcases List.mem_singleton.mp h with h
    exact Or.inl h
  | cons t rest ih =>
    intro h
    simp only [insertByStep] at h
    by_cases hc : s.step_number ≤ t.step_number
    · rw [if_pos hc] at h
      rcases List.mem_cons.mp h with h | h
      · exact Or.inl h
      · exact Or.inr h
    · rw [if_neg hc] at h
      rcases List.mem_cons.mp h with h | h
      · exact Or.inr (h ▸ List.mem_cons_self t rest)
      · rcases ih h with h | h
        · exact Or.inl h
        · exact Or.inr (List.mem_cons_of_mem t h)

theorem mem_sortByStep (x : OutreachSequence) :
    ∀ l : List OutreachSequence, x ∈ sortByStep l → x ∈ l := by
  intro l
  induction l with
  | nil => intro h; cases h
  | cons t rest ih =>
    intro h
    simp only [sortByStep] at h
    rcases mem_insertByStep t x (sortByStep rest) h with h | h
    · exact h ▸ List.mem_cons_self t rest
    · exact List.mem_cons_of_mem t (ih h)

theorem getOutreachSequences_mem (d : DB) (cid : Nat)
    (s : OutreachSequence) (h : s ∈ getOutreachSequences d cid) :
    s ∈ d.sequences := by
  unfold getOutreachSequences at h
  exact List.mem_of_mem_filter (mem_sortByStep s _ h)

theorem seq_find_self (d : DB)
    (hsnd : (d.sequences.map (fun s => s.id)).Nodup)
    (s : OutreachSequence) (hmem : s ∈ d.sequences) :
    d.sequences.find? (fun t => t.id == s.id) = some s := by
  have := find?_key_unique (fun x : OutreachSequence => x.id) d.sequences
    hsnd s hmem
  simpa using this

theorem ppseq_char (ok : Nat → Nat → Bool) (db : DB) (c : Nat)
    (p : Prospect) (seqs : List OutreachSequence) (now : Int)
    (hseqs : ∀ s ∈ seqs, s ∈ db.sequences)
    (hsnd : (db.sequences.map (fun s => s.id)).Nodup) :
    (processProspectSequences ok db c p seqs now).db.campaigns =
      db.campaigns ∧
    (processProspectSequences ok db c p seqs now).db.sequences =
      db.sequences ∧
    prospectKeys (processProspectSequences ok db c p seqs now).db =
      prospectKeys db ∧
    (∀ Q, Q ≠ p.id →
      eventsFor (processProspectSequences ok db c p seqs now).db Q =
        eventsFor db Q ∧
      progressForP (processProspectSequences ok db c p seqs now).db Q =
        progressForP db Q) ∧
    ((eventsFor (processProspectSequences ok db c p seqs now).db p.id =
        eventsFor db p.id ∧
      progressForP (processProspectSequences ok db c p seqs now).db p.id =
        progressForP db p.id) ∨
     ∃ n, n = curStepD db c p.id + 1 ∧
       eventsFor (processProspectSequences ok db c p seqs now).db p.id =
         ⟨p.id, EventType.sent, now, some n⟩ :: eventsFor db p.id ∧
       curStepD (processProspectSequences ok db c p seqs now).db c p.id =
         n) := by
  rcases ppseq_dichotomy ok db c p seqs now with
    h | ⟨nextStep, template, hna, hss, hft, hok, hr⟩
  · rw [h]
    exact ⟨rfl, rfl, rfl, fun Q _ => ⟨rfl, rfl⟩, Or.inl ⟨rfl, rfl⟩⟩
  · have hmem : nextStep ∈ db.sequences :=
      hseqs nextStep (getNextAvailableStepAux_mem db p.id
        (match getCurrentProgress db c p.id with
          | some r => r.current_step | none => 0) now seqs nextStep hna)
    have htmp : template = nextStep := by
      have hself := seq_find_self db hsnd nextStep hmem
      rw [hft] at hself
      exact Option.some.inj hself
    subst htmp
    have hn : template.step_number = curStepD db c p.id + 1 := by
      have hs2 := shouldSend_step_succ db p.id template
        (getCurrentProgress db c p.id) now hss
      unfold curStepD
      cases hgp : getCurrentProgress db c p.id with
      | none => simpa using hs2.1 hgp
      | some r => simpa using hs2.2 r hgp
    rw [hr]
    refine ⟨?_, ?_, ?_, ?_, Or.inr ⟨template.step_number, hn, ?_, ?_⟩⟩
    · rw [updateProgress_campaigns]
      rfl
    · rw [updateProgress_sequences]
      rfl
    · rw [prospectKeys_updateProgress, prospectKeys_sendEffects]
    · intro Q hQ
      constructor
      · unfold eventsFor
        rw [updateProgress_events]
        exact List.filter_cons_of_neg
          (fun hc => hQ (beq_iff_eq.mp hc).symm)
      · rw [progressForP_updateProgress_ne
          (sendEffects db p.id template.step_number now) c p.id template
          now Q hQ]
        rfl
    · unfold eventsFor
      rw [updateProgress_events]
      exact List.filter_cons_of_pos (by simp)
    · unfold curStepD
      rw [updateProgress_lookup]

theorem processProspects_char (ok : Nat → Nat → Bool) (c : Nat)
    (seqs : List OutreachSequence) (now : Int) (P : Nat) :
    ∀ (ps : List Prospect) (db : DB),
      (∀ s ∈ seqs, s ∈ db.sequences) →
      (db.sequences.map (fun s => s.id)).Nodup →
      (((processProspects ok c seqs now ps db).db.campaigns =
          db.campaigns ∧
        (processProspects ok c seqs now ps db).db.sequences =
          db.sequences ∧
        prospectKeys (processProspects ok c seqs now ps db).db =
          prospectKeys db) ∧
       (ps.countP (fun q => q.id == P) = 0 →
         eventsFor (processProspects ok c seqs now ps db).db P =
           eventsFor db P ∧
         progressForP (processProspects ok c seqs now ps db).db P =
           progressForP db P) ∧
       (ps.countP (fun q => q.id == P) ≤ 1 →
         (eventsFor (processProspects ok c seqs now ps db).db P =
            eventsFor db P ∧
          progressForP (processProspects ok c seqs now ps db).db P =
            progressForP db P) ∨
         ∃ n, n = curStepD db c P + 1 ∧
           eventsFor (processProspects ok c seqs now ps db).db P =
             ⟨P, EventType.sent, now, some n⟩ :: eventsFor db P ∧
           curStepD (processProspects ok c seqs now ps db).db c P = n)) := by
  intro ps
  induction ps with
  | nil =>
    intro db hseqs hsnd
    exact ⟨⟨rfl, rfl, rfl⟩, fun _ => ⟨rfl, rfl⟩, fun _ => Or.inl ⟨rfl, rfl⟩⟩
  | cons p rest ih =>
    intro db hseqs hsnd
    obtain ⟨hc1, hs1, hk1, hother1, hown1⟩ :=
      ppseq_char ok db c p seqs now hseqs hsnd
    by_cases herr : (processProspectSequences ok db c p seqs now).err = true
    · have hres : processProspects ok c seqs now (p :: rest) db =
          processProspectSequences ok db c p seqs now := by
        simp [processProspects, herr]
      rw [hres]
      refine ⟨⟨hc1, hs1, hk1⟩, ?_, ?_⟩
      · intro h0
        rw [List.countP_cons] at h0
        have hne : p.id ≠ P := by
          intro he
          simp [he] at h0
        exact hother1 P (fun he => hne he.symm)
      · intro hle
        by_cases hpe : p.id = P
        · subst hpe
          exact hown1
        · exact Or.inl (hother1 P (fun he => hpe he.symm))
    · have herr2 : (processProspectSequences ok db c p seqs now).err =
          false := Bool.eq_false_iff.mpr herr
      have hres : processProspects ok c seqs now (p :: rest) db =
          processProspects ok c seqs now rest
            (processProspectSequences ok db c p seqs now).db := by
        simp [processProspects, herr2]
      have hseqs2 : ∀ s ∈ seqs,
          s ∈ (processProspectSequences ok db c p seqs now).db.sequences := by
        rw [hs1]; exact hseqs
      have hsnd2 : (((processProspectSequences ok db c p seqs
          now).db.sequences).map (fun s => s.id)).Nodup := by
        rw [hs1]; exact hsnd
      obtain ⟨⟨hc2, hs2, hk2⟩, hother2, hdich2⟩ :=
        ih (processProspectSequences ok db c p seqs now).db hseqs2 hsnd2
      rw [hres]
      refine ⟨⟨hc2.trans hc1, hs2.trans hs1, hk2.trans hk1⟩, ?_, ?_⟩
      · intro h0
        rw [List.countP_cons] at h0
        have hpne : p.id ≠ P := by
          intro he
          simp [he] at h0
        have hrest0 : rest.countP (fun q => q.id == P) = 0 := by omega
        obtain ⟨he2, hp2⟩ := hother2 hrest0
        obtain ⟨he1, hp1⟩ := hother1 P (fun he => hpne he.symm)
        exact ⟨he2.trans he1, hp2.trans hp1⟩
      · intro hle
        rw [List.countP_cons] at hle
        by_cases hpe : p.id = P
        · subst hpe
          have hrest0 : rest.countP (fun q => q.id == p.id) = 0 := by
            have hp : ((fun q => q.id == p.id) p = true) := by simp
            rw [if_pos hp] at hle
            omega
          obtain ⟨he2, hp2⟩ := hother2 hrest0
          rcases hown1 with ⟨hevl, hprl⟩ | ⟨n, hn, hev, hcs⟩
          · exact Or.inl ⟨he2.trans hevl, hp2.trans hprl⟩
          · right
            refine ⟨n, hn, he2.trans hev, ?_⟩
            rw [(curStepD_congr _ _ c p.id hp2).2]
            exact hcs
        · have hle2 : rest.countP (fun q => q.id == P) ≤ 1 := by
            have : (if (fun q => q.id == P) p then 1 else 0) = 0 := by
              simp [hpe]
            omega
          obtain ⟨he1, hp1⟩ := hother1 P (fun he => hpe he.symm)
          rcases hdich2 hle2 with ⟨he2, hp2⟩ | ⟨n, hn, hev, hcs⟩
          · exact Or.inl ⟨he2.trans he1, hp2.trans hp1⟩
          · right
            refine ⟨n, ?_, ?_, hcs⟩
            · rw [hn, (curStepD_congr _ _ c P hp1).2]
            · rw [hev, he1]

theorem countP_key_le_one {α : Type} (f : α → Nat) :
    ∀ l : List α, (l.map f).Nodup → ∀ P : Nat,
      l.countP (fun a => f a == P) ≤ 1 := by
  intro l
  induction l with
  | nil => intro _ P; simp
  | cons a t ih =>
    intro hnd P
    simp only [List.map_cons, List.nodup_cons] at hnd
    rw [List.countP_cons]
    by_cases hfa : f a = P
    · have ht0 : t.countP (fun b => f b == P) = 0 := by
        apply List.countP_eq_zero.mpr
        intro b hb hcontra
        simp only [beq_iff_eq] at hcontra
        exact hnd.1 (by
          rw [hfa, ← hcontra]
          exact List.mem_map_of_mem f hb)
      rw [ht0]
      simp [hfa]
    · have hle := ih hnd.2 P
      rw [if_neg (by simp [hfa])]
      omega

theorem campaign_countP_zero (db : DB) (P cid : Nat)
    (hp : (db.prospects.map (fun q => q.id)).Nodup)
    (h : ∀ prow, findProspect db P = some prow → prow.campaign_id ≠ cid) :
    (db.prospects.filter (fun q => q.campaign_id == cid)).countP
      (fun q => q.id == P) = 0 := by
  rw [List.countP_filter]
  apply List.countP_eq_zero.mpr
  intro q hq hcontra
  simp only [Bool.and_eq_true, beq_iff_eq] at hcontra
  cases hf : findProspect db P with
  | none =>
    have := List.find?_eq_none.mp hf q hq
    simp [hcontra.1] at this
  | some prow =>
    have hprowmem : prow ∈ db.prospects := List.mem_of_find?_eq_some hf
    have hprowid : prow.id = P := by
      have := List.find?_some hf
      simpa using this
    have hqp : q = prow := List.inj_on_of_nodup_map hp hq hprowmem
      (by rw [hcontra.1, hprowid])
    exact h prow hf (hqp ▸ hcontra.2)

theorem campaign_countP_le_one (db : DB) (P cid : Nat)
    (hp : (db.prospects.map (fun q => q.id)).Nodup) :
    (db.prospects.filter (fun q => q.campaign_id == cid)).countP
      (fun q => q.id == P) ≤ 1 :=
  ((List.filter_sublist _).countP_le _).trans
    (countP_key_le_one (fun q : Prospect => q.id) db.prospects hp P)

theorem pcs_char (ok : Nat → Nat → Bool) (now : Int) (P : Nat) (db : DB)
    (cid : Nat)
    (hsnd : (db.sequences.map (fun s => s.id)).Nodup)
    (hp : (db.prospects.map (fun q => q.id)).Nodup) :
    ((processCampaignSequences ok db cid now).db.campaigns =
       db.campaigns ∧
     (processCampaignSequences ok db cid now).db.sequences =
       db.sequences ∧
     prospectKeys (processCampaignSequences ok db cid now).db =
       prospectKeys db) ∧
    ((∀ prow, findProspect db P = some prow → prow.campaign_id ≠ cid) →
      eventsFor (processCampaignSequences ok db cid now).db P =
        eventsFor db P ∧
      progressForP (processCampaignSequences ok db cid now).db P =
        progressForP db P) ∧
    ((eventsFor (processCampaignSequences ok db cid now).db P =
        eventsFor db P ∧
      progressForP (processCampaignSequences ok db cid now).db P =
        progressForP db P) ∨
     ∃ n, n = curStepD db cid P + 1 ∧
       eventsFor (processCampaignSequences ok db cid now).db P =
         ⟨P, EventType.sent, now, some n⟩ :: eventsFor db P ∧
       curStepD (processCampaignSequences ok db cid now).db cid P = n) := by
  have hseqs : ∀ s ∈ getOutreachSequences db cid, s ∈ db.sequences :=
    fun s hs => getOutreachSequences_mem db cid s hs
  obtain ⟨htab, hzero, hdich⟩ := processProspects_char ok cid
    (getOutreachSequences db cid) now P
    (db.prospects.filter (fun q => q.campaign_id == cid)) db hseqs hsnd
  have heq : processCampaignSequences ok db cid now =
      processProspects ok cid (getOutreachSequences db cid) now
        (db.prospects.filter (fun q => q.campaign_id == cid)) db := rfl
  rw [heq]
  refine ⟨htab, ?_, hdich (campaign_countP_le_one db P cid hp)⟩
  intro hno
  exact hzero (campaign_countP_zero db P cid hp hno)

theorem findProspect_campaign_eq (d₁ d₂ : DB) (P : Nat)
    (h : prospectKeys d₁ = prospectKeys d₂) :
    (findProspect d₁ P = none → findProspect d₂ P = none) ∧
    (∀ prow₁, findProspect d₁ P = some prow₁ →
      ∃ prow₂, findProspect d₂ P = some prow₂ ∧
        prow₂.campaign_id = prow₁.campaign_id) := by
  have hc := findProspect_keys_congr d₁ d₂ P h
  constructor
  · intro h1
    rw [h1] at hc
    cases hf2 : findProspect d₂ P with
    | none => rfl
    | some q =>
      rw [hf2] at hc
      simp at hc
  · intro prow₁ h1
    rw [h1] at hc
    cases hf2 : findProspect d₂ P with
    | none =>
      rw [hf2] at hc
      simp at hc
    | some prow₂ =>
      rw [hf2] at hc
      simp only [Option.map_some', Option.some.injEq, Prod.mk.injEq] at hc
      exact ⟨prow₂, rfl, hc.2.symm⟩

theorem processCampaigns_pres (ok : Nat → Nat → Bool) (now : Int)
    (P : Nat) :
    ∀ (cids : List Nat) (db : DB),
      (db.sequences.map (fun s => s.id)).Nodup →
      (db.prospects.map (fun q => q.id)).Nodup →
      (∀ prow, findProspect db P = some prow →
        prow.campaign_id ∉ cids) →
      ((processCampaigns ok now cids db).db.campaigns = db.campaigns ∧
       (processCampaigns ok now cids db).db.sequences = db.sequences ∧
       prospectKeys (processCampaigns ok now cids db).db =
         prospectKeys db) ∧
      eventsFor (processCampaigns ok now cids db).db P = eventsFor db P ∧
      progressForP (processCampaigns ok now cids db).db P =
        progressForP db P := by
  intro cids
  induction cids with
  | nil =>
    intro db _ _ _
    exact ⟨⟨rfl, rfl, rfl⟩, rfl, rfl⟩
  | cons cid rest ih =>
    intro db hsnd hp hno
    obtain ⟨⟨hc1, hs1, hk1⟩, hpres1, -⟩ := pcs_char ok now P db cid hsnd hp
    obtain ⟨he1, hp1⟩ := hpres1 (fun prow hf hceq =>
      hno prow hf (hceq ▸ List.mem_cons_self cid rest))
    by_cases herr : (processCampaignSequences ok db cid now).err = true
    · have hres : processCampaigns ok now (cid :: rest) db =
          processCampaignSequences ok db cid now := by
        simp [processCampaigns, herr]
      rw [hres]
      exact ⟨⟨hc1, hs1, hk1⟩, he1, hp1⟩
    · have herr2 : (processCampaignSequences ok db cid now).err = false :=
        Bool.eq_false_iff.mpr herr
      have hres : processCampaigns ok now (cid :: rest) db =
          processCampaigns ok now rest
            (processCampaignSequences ok db cid now).db := by
        simp [processCampaigns, herr2]
      have hsnd2 : (((processCampaignSequences ok db cid
          now).db.sequences).map (fun s => s.id)).Nodup := by
        rw [hs1]; exact hsnd
      have hp2 : (((processCampaignSequences ok db cid
          now).db.prospects).map (fun q => q.id)).Nodup := by
        rw [prospect_ids_eq_keys_fst, hk1, ← prospect_ids_eq_keys_fst]
        exact hp
      have hno2 : ∀ prow, findProspect
          (processCampaignSequences ok db cid now).db P = some prow →
          prow.campaign_id ∉ rest := by
        intro prow hf
        obtain ⟨prow₂, hf₂, hcamp⟩ :=
          (findProspect_campaign_eq _ db P hk1).2 prow hf
        rw [← hcamp]
        intro hmem
        exact hno prow₂ hf₂ (List.mem_cons_of_mem cid hmem)
      obtain ⟨⟨hc2, hs2, hk2⟩, he2, hpr2⟩ :=
        ih (processCampaignSequences ok db cid now).db hsnd2 hp2 hno2
      rw [hres]
      exact ⟨⟨hc2.trans hc1, hs2.trans hs1, hk2.trans hk1⟩,
        he2.trans he1, hpr2.trans hp1⟩

theorem processCampaigns_char (ok : Nat → Nat → Bool) (now : Int)
    (P : Nat) :
    ∀ (cids : List Nat) (db : DB),
      (db.sequences.map (fun s => s.id)).Nodup →
      (db.prospects.map (fun q => q.id)).Nodup →
      cids.Nodup →
      (((processCampaigns ok now cids db).db.campaigns = db.campaigns ∧
        (processCampaigns ok now cids db).db.sequences = db.sequences ∧
        prospectKeys (processCampaigns ok now cids db).db =
          prospectKeys db) ∧
       ((eventsFor (processCampaigns ok now cids db).db P =
           eventsFor db P ∧
         progressForP (processCampaigns ok now cids db).db P =
           progressForP db P) ∨
        ∃ prow n, findProspect db P = some prow ∧
          n = curStepD db prow.campaign_id P + 1 ∧
          eventsFor (processCampaigns ok now cids db).db P =
            ⟨P, EventType.sent, now, some n⟩ :: eventsFor db P ∧
          curStepD (processCampaigns ok now cids db).db
            prow.campaign_id P = n)) := by
  intro cids
  induction cids with
  | nil =>
    intro db _ _ _
    exact ⟨⟨rfl, rfl, rfl⟩, Or.inl ⟨rfl, rfl⟩⟩
  | cons cid rest ih =>
    intro db hsnd hp hndc
    obtain ⟨⟨hc1, hs1, hk1⟩, hpres1, hdich1⟩ :=
      pcs_char ok now P db cid hsnd hp
    by_cases herr : (processCampaignSequences ok db cid now).err = true
    · have hres : processCampaigns ok now (cid :: rest) db =
          processCampaignSequences ok db cid now := by
        simp [processCampaigns, herr]
      rw [hres]
      refine ⟨⟨hc1, hs1, hk1⟩, ?_⟩
      cases hf : findProspect db P with
      | none =>
        exact Or.inl (hpres1 (fun prow hfp => by
          rw [hf] at hfp; cases hfp))
      | some prow =>
        by_cases hcm : prow.campaign_id = cid
        · rcases hdich1 with hl | ⟨n, hn, hev, hcs⟩
          · exact Or.inl hl
          · exact Or.inr ⟨prow, n, rfl, by rw [hcm]; exact hn, hev,
              by rw [hcm]; exact hcs⟩
        · refine Or.inl (hpres1 ?_)
          intro prow2 hf2
          rw [hf] at hf2
          cases hf2
          exact hcm
    · have herr2 : (processCampaignSequences ok db cid now).err = false :=
        Bool.eq_false_iff.mpr herr
      have hres : processCampaigns ok now (cid :: rest) db =
          processCampaigns ok now rest
            (processCampaignSequences ok db cid now).db := by
        simp [processCampaigns, herr2]
      have hsnd2 : (((processCampaignSequences ok db cid
          now).db.sequences).map (fun s => s.id)).Nodup := by
        rw [hs1]; exact hsnd
      have hp2 : (((processCampaignSequences ok db cid
          now).db.prospects).map (fun q => q.id)).Nodup := by
        rw [prospect_ids_eq_keys_fst, hk1, ← prospect_ids_eq_keys_fst]
        exact hp
      have hndc2 : rest.Nodup := (List.nodup_cons.mp hndc).2
      have hcidrest : cid ∉ rest := (List.nodup_cons.mp hndc).1
      cases hf : findProspect db P with
      | none =>
        have hstep := hpres1 (fun prow hfp => by
          rw [hf] at hfp; cases hfp)
        have hfr1 : findProspect
            (processCampaignSequences ok db cid now).db P = none :=
          (findProspect_campaign_eq db _ P hk1.symm).1 hf
        have hno2 : ∀ prow, findProspect
            (processCampaignSequences ok db cid now).db P = some prow →
            prow.campaign_id ∉ rest := fun prow hfp => by
          rw [hfr1] at hfp; cases hfp
        obtain ⟨⟨hc2, hs2, hk2⟩, he2, hpr2⟩ :=
          processCampaigns_pres ok now P rest _ hsnd2 hp2 hno2
        rw [hres]
        exact ⟨⟨hc2.trans hc1, hs2.trans hs1, hk2.trans hk1⟩,
          Or.inl ⟨he2.trans hstep.1, hpr2.trans hstep.2⟩⟩
      | some prow =>
        by_cases hcm : prow.campaign_id = cid
        · have hno2 : ∀ prow2, findProspect
              (processCampaignSequences ok db cid now).db P = some prow2 →
              prow2.campaign_id ∉ rest := by
            intro prow2 hf2
            obtain ⟨prow3, hf3, hcamp3⟩ :=
              (findProspect_campaign_eq _ db P hk1).2 prow2 hf2
            rw [hf] at hf3
            cases hf3
            rw [← hcamp3, hcm]
            exact hcidrest
          obtain ⟨⟨hc2, hs2, hk2⟩, he2, hpr2⟩ :=
            processCampaigns_pres ok now P rest _ hsnd2 hp2 hno2
          rw [hres]
          refine ⟨⟨hc2.trans hc1, hs2.trans hs1, hk2.trans hk1⟩, ?_⟩
          rcases hdich1 with ⟨hevl, hprl⟩ | ⟨n, hn, hev, hcs⟩
          · exact Or.inl ⟨he2.trans hevl, hpr2.trans hprl⟩
          · right
            refine ⟨prow, n, rfl, by rw [hcm]; exact hn,
              he2.trans hev, ?_⟩
            rw [hcm, (curStepD_congr _ _ cid P hpr2).2]
            exact hcs
        · have hstep := hpres1 (fun prow2 hf2 => by
            rw [hf] at hf2; cases hf2; exact hcm)
          obtain ⟨⟨hc2, hs2, hk2⟩, hdich2⟩ := ih _ hsnd2 hp2 hndc2
          rw [hres]
          refine ⟨⟨hc2.trans hc1, hs2.trans hs1, hk2.trans hk1⟩, ?_⟩
          rcases hdich2 with ⟨he2, hp2f⟩ | ⟨prow1, n, hf1, hn1, hev1, hcs1⟩
          · exact Or.inl ⟨he2.trans hstep.1, hp2f.trans hstep.2⟩
          · right
            obtain ⟨prow₂, hf₂, hcamp₂⟩ :=
              (findProspect_campaign_eq _ db P hk1).2 prow1 hf1
            rw [hf] at hf₂
            cases hf₂
            refine ⟨prow, n, rfl, ?_, ?_, ?_⟩
            · rw [hn1, (curStepD_congr _ _ prow1.campaign_id P
                hstep.2).2, hcamp₂]
            · rw [hev1, hstep.1]
            · rw [hcamp₂]
              exact hcs1

theorem executeSequences_char (ok : Nat → Nat → Bool) (db : DB)
    (now : Int) (P : Nat)
    (hcnd : (db.campaigns.map (fun x => x.id)).Nodup)
    (hp : (db.prospects.map (fun q => q.id)).Nodup)
    (hsnd : (db.sequences.map (fun s => s.id)).Nodup) :
    ((executeSequences ok db now).db.campaigns = db.campaigns ∧
     (executeSequences ok db now).db.sequences = db.sequences ∧
     prospectKeys (executeSequences ok db now).db = prospectKeys db) ∧
    ((eventsFor (executeSequences ok db now).db P = eventsFor db P ∧
      progressForP (executeSequences ok db now).db P = progressForP db P) ∨
     ∃ prow n, findProspect db P = some prow ∧
       n = curStepD db prow.campaign_id P + 1 ∧
       eventsFor (executeSequences ok db now).db P =
         ⟨P, EventType.sent, now, some n⟩ :: eventsFor db P ∧
       curStepD (executeSequences ok db now).db prow.campaign_id P = n) := by
  have hids : ((db.campaigns.filter (fun x =>
      x.status == CampaignStatus.active)).map (fun x => x.id)).Nodup :=
    hcnd.sublist (List.Sublist.map _ (List.filter_sublist _))
  exact processCampaigns_char ok now P
    ((db.campaigns.filter (fun x =>
      x.status == CampaignStatus.active)).map (fun x => x.id)) db
    hsnd hp hids

theorem sentTo_congr (d₁ d₂ : DB) (P : Nat)
    (h : eventsFor d₁ P = eventsFor d₂ P) : sentTo d₁ P = sentTo d₂ P := by
  unfold sentTo
  rw [h]

theorem sentTo_cons_sent (d₁ d₂ : DB) (P n : Nat) (now : Int)
    (h : eventsFor d₁ P =
      ⟨P, EventType.sent, now, some n⟩ :: eventsFor d₂ P) :
    sentTo d₁ P = sentTo d₂ P + 1 := by
  unfold sentTo
  rw [h, List.filter_cons_of_pos (by simp)]
  rfl

theorem sentCount_congr (d₁ d₂ : DB) (P N : Nat)
    (h : eventsFor d₁ P = eventsFor d₂ P) :
    sentCount d₁ P N = sentCount d₂ P N := by
  unfold sentCount
  rw [h]

theorem sentCount_cons (d₁ d₂ : DB) (P N n : Nat) (now : Int)
    (h : eventsFor d₁ P =
      ⟨P, EventType.sent, now, some n⟩ :: eventsFor d₂ P) :
    sentCount d₁ P N ≤ sentCount d₂ P N + (if N = n then 1 else 0) := by
  unfold sentCount
  rw [h]
  by_cases he : N = n
  · rw [List.filter_cons_of_pos (by simp [he]), if_pos he]
    simp
  · rw [List.filter_cons_of_neg (by simp; exact Ne.symm he), if_neg he]
    simp

/-- C1: a single invocation of the executor records at most one new `sent`
event for any prospect, and two invocations of executeSequences in
succession record at most one `sent` event for any given (prospect,
step_number) pair on top of the initial store — the same step is never
sent twice.  The Nodup hypotheses say that campaign, prospect and sequence
row ids are primary keys. -/
theorem claim_C1_at_most_once (db : DB) (ok₁ ok₂ : Nat → Nat → Bool)
    (now₁ now₂ : Int) (P N : Nat)
    (hc : (db.campaigns.map (fun x => x.id)).Nodup)
    (hp : (db.prospects.map (fun q => q.id)).Nodup)
    (hs : (db.sequences.map (fun s => s.id)).Nodup) :
    sentTo (executeSequences ok₁ db now₁).db P ≤ sentTo db P + 1 ∧
    sentCount (executeSequences ok₂ (executeSequences ok₁ db now₁).db
        now₂).db P N ≤ sentCount db P N + 1 := by
  obtain ⟨⟨hc1, hs1, hk1⟩, hd1⟩ :=
    executeSequences_char ok₁ db now₁ P hc hp hs
  constructor
  · rcases hd1 with ⟨he, -⟩ | ⟨prow, n, -, -, hev, -⟩
    · rw [sentTo_congr _ db P he]
      omega
    · rw [sentTo_cons_sent _ db P n now₁ hev]
  · have hc2 : (((executeSequences ok₁ db now₁).db.campaigns).map
        (fun x => x.id)).Nodup := by
      rw [hc1]; exact hc
    have hp2 : (((executeSequences ok₁ db now₁).db.prospects).map
        (fun q => q.id)).Nodup := by
      rw [prospect_ids_eq_keys_fst, hk1, ← prospect_ids_eq_keys_fst]
      exact hp
    have hs2 : (((executeSequences ok₁ db now₁).db.sequences).map
        (fun s => s.id)).Nodup := by
      rw [hs1]; exact hs
    obtain ⟨⟨hc1b, hs1b, hk1b⟩, hd2⟩ :=
      executeSequences_char ok₂ (executeSequences ok₁ db now₁).db now₂ P
        hc2 hp2 hs2
    rcases hd1 with ⟨he1, hpr1⟩ | ⟨prow, n₁, hf1, hn1, hev1, hcs1⟩
    · rcases hd2 with ⟨he2, -⟩ | ⟨prowb, n₂, -, -, hev2, -⟩
      · rw [sentCount_congr _ _ P N (he2.trans he1)]
        omega
      · have t2 := sentCount_cons _ _ P N n₂ now₂ hev2
        have heq1 := sentCount_congr _ db P N he1
        by_cases hN : N = n₂
        · rw [if_pos hN] at t2
          omega
        · rw [if_neg hN] at t2
          omega
    · rcases hd2 with ⟨he2, -⟩ | ⟨prowb, n₂, hf2, hn2, hev2, hcs2⟩
      · have t1 := sentCount_cons _ db P N n₁ now₁ hev1
        have h22 := sentCount_congr _ _ P N he2
        by_cases hN : N = n₁
        · rw [if_pos hN] at t1
          omega
        · rw [if_neg hN] at t1
          omega
      · obtain ⟨prow₂, hf₂, hcamp₂⟩ :=
          (findProspect_campaign_eq _ db P hk1).2 prowb hf2
        rw [hf1] at hf₂
        cases hf₂
        have hn₂ : n₂ = n₁ + 1 := by
          rw [hn2, ← hcamp₂, hcs1]
        have t1 := sentCount_cons _ db P N n₁ now₁ hev1
        have t2 := sentCount_cons _ _ P N n₂ now₂ hev2
        by_cases hN1 : N = n₁
        · have hN2 : N ≠ n₂ := by
            rw [hN1, hn₂]
            omega
          rw [if_pos hN1] at t1
          rw [if_neg hN2] at t2
          omega
        · rw [if_neg hN1] at t1
          by_cases hN2 : N = n₂
          · rw [if_pos hN2] at t2
            omega
          · rw [if_neg hN2] at t2
            omega

/-- C1 witness: two back-to-back runs at the concrete store -/
theorem claim_C1_witness :
    sentTo (executeSequences okAll dbTwo 0).db 1 ≤ sentTo dbTwo 1 + 1 ∧
    sentCount (executeSequences okAll
        (executeSequences okAll dbTwo 0).db 5).db 1 1 ≤
      sentCount dbTwo 1 1 + 1 :=
  claim_C1_at_most_once dbTwo okAll okAll 0 5 1 1
    (by decide) (by decide) (by decide)

end Automeet
